import Mathlib

/-!
Verification of the Pump provably-fair analyzer.

This file embeds, as Lean definitions, the parts of the repository that the
claims refer to:

* the deterministic outcome engine (HMAC-SHA256 digest stream, float stream,
  selection-shuffle permutation, pop-point/multiplier resolution).  The
  backend implementation is not shipped in this repository snapshot (only the
  frontend and the product documents are), so these definitions are modelled
  from the specification; each such definition carries a doc comment starting
  with "Modelled from the spec:".
* the frontend analysis engine `frontend/src/lib/analysisMath.ts`
  (bucketing, single-pass distance computation, median, range filtering,
  consistency validation), translated function by function.
* the run-creation form validation from the `NewRun` page
  (`validateForm` / `handleSubmit`).

Numbers: JavaScript/Python numbers are modelled as exact rationals (ℚ) and
integers (ℤ/ℕ); 32-bit machine words in SHA-256 are naturals reduced
`% 2^32`.  `NaN` and the infinities, where the code can observe them, are
modelled by dedicated constructors.
-/

namespace Pump

/-! ## SHA-256 over byte lists

Modelled from the spec: the DigestStream contract asks for HMAC-SHA256 over
the message `"{client_seed}:{nonce}:{round}"` keyed by the server seed's
literal bytes.  SHA-256 itself is the standard FIPS 180-4 function; bytes are
naturals < 256, words are naturals < 2^32. -/

/-- 2^32, the word modulus of SHA-256. -/
def w32 : Nat := 4294967296

/-- Right-rotation of a 32-bit word. -/
def rotr (n x : Nat) : Nat := ((x >>> n) ||| (x <<< (32 - n))) % w32

/-- SHA-256 `Ch` function. -/
def shaCh (x y z : Nat) : Nat := (x &&& y) ^^^ ((x ^^^ 4294967295) &&& z)

/-- SHA-256 `Maj` function. -/
def shaMaj (x y z : Nat) : Nat := (x &&& y) ^^^ (x &&& z) ^^^ (y &&& z)

/-- SHA-256 big sigma 0. -/
def bigS0 (x : Nat) : Nat := rotr 2 x ^^^ rotr 13 x ^^^ rotr 22 x

/-- SHA-256 big sigma 1. -/
def bigS1 (x : Nat) : Nat := rotr 6 x ^^^ rotr 11 x ^^^ rotr 25 x

/-- SHA-256 small sigma 0. -/
def smallS0 (x : Nat) : Nat := rotr 7 x ^^^ rotr 18 x ^^^ (x >>> 3)

/-- SHA-256 small sigma 1. -/
def smallS1 (x : Nat) : Nat := rotr 17 x ^^^ rotr 19 x ^^^ (x >>> 10)

/-- The 64 SHA-256 round constants. -/
def shaK : List Nat :=
  [1116352408, 1899447441, 3049323471, 3921009573, 961987163, 1508970993,
   2453635748, 2870763221, 3624381080, 310598401, 607225278, 1426881987,
   1925078388, 2162078206, 2614888103, 3248222580, 3835390401, 4022224774,
   264347078, 604807628, 770255983, 1249150122, 1555081692, 1996064986,
   2554220882, 2821834349, 2952996808, 3210313671, 3336571891, 3584528711,
   113926993, 338241895, 666307205, 773529912, 1294757372, 1396182291,
   1695183700, 1986661051, 2177026350, 2456956037, 2730485921, 2820302411,
   3259730800, 3345764771, 3516065817, 3600352804, 4094571909, 275423344,
   430227734, 506948616, 659060556, 883997877, 958139571, 1322822218,
   1537002063, 1747873779, 1955562222, 2024104815, 2227730452, 2361852424,
   2428436474, 2756734187, 3204031479, 3329325298]

/-- Group a byte list into big-endian 32-bit words (drops a trailing
incomplete group, which never occurs on our inputs). -/
def chunk4 : List Nat → List Nat
  | b0 :: b1 :: b2 :: b3 :: rest =>
      (((b0 * 256 + b1) * 256 + b2) * 256 + b3) :: chunk4 rest
  | _ => []

/-- Big-endian bytes of a 32-bit word. -/
def wordToBytes (x : Nat) : List Nat :=
  [x / 16777216 % 256, x / 65536 % 256, x / 256 % 256, x % 256]

/-- One step of the message-schedule extension, operating on the reversed
schedule built so far. -/
def wNext (rev : List Nat) : Nat :=
  (smallS1 (rev.getD 1 0) + rev.getD 6 0 + smallS0 (rev.getD 14 0)
    + rev.getD 15 0) % w32

/-- Extend the (reversed) message schedule by `n` further words. -/
def extendW : Nat → List Nat → List Nat
  | 0, rev => rev
  | n + 1, rev => extendW n (wNext rev :: rev)

/-- The 64-word message schedule of a 64-byte block. -/
def schedule (block : List Nat) : List Nat :=
  (extendW 48 (chunk4 block).reverse).reverse

/-- The eight working variables of the SHA-256 compression loop. -/
structure Hash8 where
  a : Nat
  b : Nat
  c : Nat
  d : Nat
  e : Nat
  f : Nat
  g : Nat
  h : Nat

/-- One round of the SHA-256 compression loop. -/
def shaStep (st : Hash8) (wk : Nat × Nat) : Hash8 :=
  let t1 := (st.h + bigS1 st.e + shaCh st.e st.f st.g + wk.1 + wk.2) % w32
  let t2 := (bigS0 st.a + shaMaj st.a st.b st.c) % w32
  { a := (t1 + t2) % w32, b := st.a, c := st.b, d := st.c,
    e := (st.d + t1) % w32, f := st.e, g := st.f, h := st.g }

/-- Compress one 64-byte block into the running hash state. -/
def compress (hs : Hash8) (block : List Nat) : Hash8 :=
  let fin := ((schedule block).zip shaK).foldl shaStep hs
  { a := (hs.a + fin.a) % w32, b := (hs.b + fin.b) % w32,
    c := (hs.c + fin.c) % w32, d := (hs.d + fin.d) % w32,
    e := (hs.e + fin.e) % w32, f := (hs.f + fin.f) % w32,
    g := (hs.g + fin.g) % w32, h := (hs.h + fin.h) % w32 }

/-- FIPS 180-4 padding: append `0x80`, zeros, and the 64-bit bit length. -/
def padBytes (msg : List Nat) : List Nat :=
  let L := msg.length
  let k := (119 - L % 64) % 64
  msg ++ [128] ++ List.replicate k 0
    ++ wordToBytes (8 * L / w32) ++ wordToBytes (8 * L % w32)

/-- Split into 64-byte blocks; the fuel argument bounds the recursion and is
always supplied large enough. -/
def chunks64 : Nat → List Nat → List (List Nat)
  | 0, _ => []
  | _, [] => []
  | fuel + 1, l => l.take 64 :: chunks64 fuel (l.drop 64)

/-- The SHA-256 initial hash state. -/
def shaInit : Hash8 :=
  { a := 1779033703, b := 3144134277, c := 1013904242, d := 2773480762,
    e := 1359893119, f := 2600822924, g := 528734635, h := 1541459225 }

/-- SHA-256 of a byte list, as 32 bytes. -/
def sha256 (msg : List Nat) : List Nat :=
  let fin := (chunks64 (msg.length + 9) (padBytes msg)).foldl compress shaInit
  wordToBytes fin.a ++ wordToBytes fin.b ++ wordToBytes fin.c
    ++ wordToBytes fin.d ++ wordToBytes fin.e ++ wordToBytes fin.f
    ++ wordToBytes fin.g ++ wordToBytes fin.h

/-- HMAC-SHA256 (RFC 2104) over byte lists. -/
def hmacSha256 (key msg : List Nat) : List Nat :=
  let k0 := if 64 < key.length then sha256 key else key
  let kp := k0 ++ List.replicate (64 - k0.length) 0
  sha256 ((kp.map (fun b => b ^^^ 92))
    ++ sha256 ((kp.map (fun b => b ^^^ 54)) ++ msg))

/-! ## The Pump outcome engine

The backend that implements this (FastAPI service) is not part of this
repository snapshot; the definitions below are modelled from the
specification's DigestStream / FloatStream / PermutationGenerator /
OutcomeResolver contracts and the multiplier tables it fixes.  Seeds are
taken as byte lists (the code feeds the UTF-8 bytes of the seed strings). -/

/-- Decimal digits of a natural as ASCII bytes; the fuel argument bounds the
recursion and is always supplied large enough. -/
def decDigitsAux : Nat → Nat → List Nat
  | 0, _ => []
  | fuel + 1, n => if n = 0 then [] else decDigitsAux fuel (n / 10) ++ [48 + n % 10]

/-- ASCII decimal representation of a natural. -/
def decBytes (n : Nat) : List Nat :=
  if n = 0 then [48] else decDigitsAux (n + 1) n

/-- Modelled from the spec: the DigestStream message
`"{client_seed}:{nonce}:{round}"` as bytes (58 is the colon). -/
def pumpMessage (client : List Nat) (nonce round : Nat) : List Nat :=
  client ++ [58] ++ decBytes nonce ++ [58] ++ decBytes round

/-- Modelled from the spec: one DigestStream digest,
`HMAC_SHA256(server_seed_bytes, "{client}:{nonce}:{round}")`. -/
def digestFor (server client : List Nat) (nonce round : Nat) : List Nat :=
  hmacSha256 server (pumpMessage client nonce round)

/-- Modelled from the spec: the FloatStream values for the given number of
digest rounds.  Each float `u = b0/256 + b1/256² + b2/256³ + b3/256⁴` is kept
as its exact numerator `n = b0·2^24 + b1·2^16 + b2·2^8 + b3` over `2^32`, so
`floor(u · len)` is the integer `n · len / 2^32`. -/
def floatNumerators (server client : List Nat) (nonce rounds : Nat) : List Nat :=
  chunk4 (((List.range rounds).map (digestFor server client nonce)).flatten)

/-- Modelled from the spec: the selection shuffle.  Each float numerator `u`
picks index `j = floor(u·len/2^32)` (clamped defensively as the spec asks)
from the remaining pool; the draw stops when the pool is exhausted, which is
exactly when the permutation reaches 25 entries. -/
def drawLoop : List Nat → List Nat → List Nat
  | _, [] => []
  | [], _ :: _ => []
  | u :: us, p :: ps =>
      let pool := p :: ps
      let j := min (u * pool.length / w32) (pool.length - 1)
      pool.getD j 0 :: drawLoop us (pool.eraseIdx j)

/-- Modelled from the spec: `generate(seed_pair, client_seed, nonce)`.
Four digest rounds yield 32 floats, always enough for the 25 picks (each
float consumes exactly one pick since `j < len` whenever `u < 2^32`). -/
def permutationFor (server client : List Nat) (nonce : Nat) : List Nat :=
  drawLoop (floatNumerators server client nonce 4) (List.range' 1 25)

/-- The four Pump difficulties. -/
inductive Difficulty where
  | easy
  | medium
  | hard
  | expert
deriving DecidableEq

/-- Modelled from the spec: the pop-token count `M` per difficulty. -/
def popTokens : Difficulty → Nat
  | .easy => 1
  | .medium => 3
  | .hard => 5
  | .expert => 10

/-- Modelled from the spec: the static multiplier tables (PRD §1.2), one
array per difficulty.  The decimal entries are written as exact hundredths
(`mkRat n 100`), e.g. `11200.65 = mkRat 1120065 100`. -/
def multiplierTable : Difficulty → List ℚ
  | .easy =>
      [mkRat 100 100, mkRat 102 100, mkRat 106 100, mkRat 111 100, mkRat 117 100, mkRat 123 100, mkRat 129 100, mkRat 136 100, mkRat 144 100, mkRat 153 100, mkRat 162 100,
       mkRat 175 100, mkRat 188 100, mkRat 200 100, mkRat 223 100, mkRat 243 100, mkRat 272 100, mkRat 305 100, mkRat 350 100, mkRat 408 100, mkRat 500 100, mkRat 625 100,
       mkRat 800 100, mkRat 1225 100, mkRat 2450 100]
  | .medium =>
      [mkRat 100 100, mkRat 111 100, mkRat 127 100, mkRat 146 100, mkRat 169 100, mkRat 198 100, mkRat 233 100, mkRat 276 100, mkRat 331 100, mkRat 403 100, mkRat 495 100,
       mkRat 619 100, mkRat 787 100, mkRat 1025 100, mkRat 1366 100, mkRat 1878 100, mkRat 2683 100, mkRat 3876 100, mkRat 6440 100, mkRat 11270 100,
       mkRat 22540 100, mkRat 56350 100, mkRat 225400 100]
  | .hard =>
      [mkRat 100 100, mkRat 123 100, mkRat 155 100, mkRat 198 100, mkRat 256 100, mkRat 336 100, mkRat 448 100, mkRat 608 100, mkRat 841 100, mkRat 1192 100, mkRat 1700 100,
       mkRat 2601 100, mkRat 4049 100, mkRat 6574 100, mkRat 11270 100, mkRat 20662 100, mkRat 41323 100, mkRat 92977 100, mkRat 247940 100,
       mkRat 867790 100, mkRat 5206740 100]
  | .expert =>
      [mkRat 100 100, mkRat 163 100, mkRat 280 100, mkRat 495 100, mkRat 908 100, mkRat 1734 100, mkRat 3468 100, mkRat 7321 100, mkRat 16472 100, mkRat 40002 100,
       mkRat 106673 100, mkRat 320018 100, mkRat 1120065 100, mkRat 4853613 100, mkRat 29121680 100, mkRat 320338480 100]

/-- An Outcome as the verify endpoint reports it. -/
structure Outcome where
  pop_point : Nat
  safe_pumps : Nat
  multiplier : ℚ
deriving DecidableEq

/-- Modelled from the spec: `verify_pump` / `resolve`.
`pop_set = permutation[0:M]`, `pop_point = min(pop_set)`,
`safe_pumps = min(pop_point - 1, 25 - M)`,
`multiplier = table[difficulty][safe_pumps]`. -/
def verifyPump (server client : List Nat) (nonce : Nat) (d : Difficulty) :
    Outcome :=
  let M := popTokens d
  let perm := permutationFor server client nonce
  let popPoint := (perm.take M).foldl min 26
  let safePumps := min (popPoint - 1) (25 - M)
  { pop_point := popPoint, safe_pumps := safePumps,
    multiplier := (multiplierTable d).getD safePumps 0 }

/-- The golden-vector server seed
`564e967b90f03d0153fdcb2d2d1cc5a5057e0df78163611fe3801d6498e681ca`,
as its ASCII bytes (the key is the literal text, never hex-decoded). -/
def goldenServer : List Nat :=
  [53, 54, 52, 101, 57, 54, 55, 98, 57, 48, 102, 48, 51, 100, 48, 49, 53,
   51, 102, 100, 99, 98, 50, 100, 50, 100, 49, 99, 99, 53, 97, 53, 48, 53,
   55, 101, 48, 100, 102, 55, 56, 49, 54, 51, 54, 49, 49, 102, 101, 51, 56,
   48, 49, 100, 54, 52, 57, 56, 101, 54, 56, 49, 99, 97]

/-- The golden-vector client seed `zXv1upuFns` as its ASCII bytes. -/
def goldenClient : List Nat :=
  [122, 88, 118, 49, 117, 112, 117, 70, 110, 115]

/-! ## Frontend analysis engine (`frontend/src/lib/analysisMath.ts`)

JS numbers that the analysis code can observe are exact rationals; a `NaN`
multiplier is a dedicated constructor, and `null`/`undefined` is `Option`.
Bet ids are naturals.  JS `Map`s are modelled as functions to `Option`
(absent key = `undefined`), updated pointwise, which matches `get`/`set`
semantics exactly. -/

/-- JS `Math.round` on an exact rational: round half toward `+∞`. -/
def jsRound (q : ℚ) : ℤ := ⌊q + 1 / 2⌋

/-- `bucketMultiplier(m) = Math.round(m * 100) / 100`, transcribed to integer
arithmetic on the reduced fraction so that it evaluates in the kernel: for
`q = n/d`, `q·100 + 1/2 = (200n + d)/(2d)`, so the rounded integer is
`fdiv (200n + d) (2d)`; dividing it by 100 is `Rat.divInt`.
`bucketMultiplier_eq` below proves this equal to `(jsRound (q·100))/100`. -/
def bucketMultiplier (q : ℚ) : ℚ :=
  Rat.divInt (Int.fdiv (200 * q.num + q.den) (2 * q.den)) 100

/-- A JS number that may be `NaN` (as observable by `Number.isNaN`). -/
inductive MultVal where
  | nan
  | fin (q : ℚ)
deriving DecidableEq

/-- The `Bet` row shape used by `computeDistancesNonceAsc`. -/
structure Bet where
  id : ℕ
  nonce : ℤ
  payout_multiplier : Option MultVal := none
  round_result : Option MultVal := none
deriving DecidableEq

/-- `b.round_result ?? b.payout_multiplier`. -/
def betRaw (b : Bet) : Option MultVal :=
  b.round_result.orElse (fun _ => b.payout_multiplier)

/-- The internal `bucket` helper:
`m == null || Number.isNaN(m) ? null : bucketMultiplier(m)`. -/
def bucketVal : Option MultVal → Option ℚ
  | none => none
  | some .nan => none
  | some (.fin q) => some (bucketMultiplier q)

/-- The bucket of a bet: `bucket(b.round_result ?? b.payout_multiplier)`. -/
def betBucket (b : Bet) : Option ℚ := bucketVal (betRaw b)

/-- Sort key of `.sort((a, b) => a.nonce - b.nonce)` on bets. -/
def betLE (a b : Bet) : Prop := a.nonce ≤ b.nonce

instance : DecidableRel betLE := fun a b =>
  inferInstanceAs (Decidable (a.nonce ≤ b.nonce))

instance : IsTotal Bet betLE := ⟨fun a b => Int.le_total a.nonce b.nonce⟩

instance : IsTrans Bet betLE := ⟨fun _ _ _ hab hbc => le_trans hab hbc⟩

/-- Pointwise update, the model of `Map.set`. -/
def updF {α β : Type} [DecidableEq α] (f : α → β) (k : α) (v : β) : α → β :=
  fun x => if x = k then v else f x

/-- The loop state of the distance pass:
`lastNonceByBucket` and `distanceById`. -/
def DistState : Type := (ℚ → Option ℤ) × (ℕ → Option (Option ℤ))

/-- Both maps start empty. -/
def distInit : DistState := (fun _ => none, fun _ => none)

/-- One iteration of the `computeDistancesNonceAsc` loop body. -/
def distStep (st : DistState) (b : Bet) : DistState :=
  match betBucket b with
  | none => (st.1, updF st.2 b.id (some none))
  | some m =>
      (updF st.1 m (some b.nonce),
       updF st.2 b.id (some ((st.1 m).map (fun p => b.nonce - p))))

/-- `computeDistancesNonceAsc`: defensive stable sort by nonce, then the
single left-to-right pass. -/
def computeDistancesNonceAsc (bets : List Bet) : ℕ → Option (Option ℤ) :=
  ((List.insertionSort betLE bets).foldl distStep distInit).2

/-- The chronological single pass on the list as given (no sorting); the
spec's "single left-to-right pass" contract. -/
def singlePassDistances (bets : List Bet) : ℕ → Option (Option ℤ) :=
  (bets.foldl distStep distInit).2

/-- The `HitRecord` row shape of the hit-centric pipeline. -/
structure HitRecord where
  id : ℕ
  nonce : ℤ
  bucket : ℚ
  distance_prev : Option ℤ := none
  date_time : Option String := none
deriving DecidableEq

/-- Sort key of `.sort((a, b) => a.nonce - b.nonce)` on hit records. -/
def hitLE (a b : HitRecord) : Prop := a.nonce ≤ b.nonce

instance : DecidableRel hitLE := fun a b =>
  inferInstanceAs (Decidable (a.nonce ≤ b.nonce))

instance : IsTotal HitRecord hitLE := ⟨fun a b => Int.le_total a.nonce b.nonce⟩

instance : IsTrans HitRecord hitLE := ⟨fun _ _ _ hab hbc => le_trans hab hbc⟩

/-- One iteration of the `computeDistancesForHits` loop body (a hit's bucket
is always defined: `bucketMultiplier(hit.bucket)`). -/
def hitStep (st : DistState) (h : HitRecord) : DistState :=
  let m := bucketMultiplier h.bucket
  (updF st.1 m (some h.nonce),
   updF st.2 h.id (some ((st.1 m).map (fun p => h.nonce - p))))

/-- `computeDistancesForHits`: defensive stable sort by nonce, then the
single left-to-right pass. -/
def computeDistancesForHits (hits : List HitRecord) : ℕ → Option (Option ℤ) :=
  ((List.insertionSort hitLE hits).foldl hitStep distInit).2

/-- `filterHitsByRange`: keep `start <= nonce <= end`. -/
def filterHitsByRange (hits : List HitRecord) (range : ℤ × ℤ) :
    List HitRecord :=
  hits.filter (fun h => range.1 ≤ h.nonce && h.nonce ≤ range.2)

/-- Ascending sort of integers, `values.slice().sort((a, b) => a - b)`. -/
def sortIntsAsc (l : List ℤ) : List ℤ :=
  List.insertionSort (fun a b : ℤ => a ≤ b) l

/-- `medianInt` at its use sites (integer gap lists): sorts a copy, takes the
middle element for odd length, else `Math.round((lo + hi) / 2)`; for integers
`a`, `b`, `Math.round((a+b)/2) = ⌊(a+b)/2 + 1/2⌋ = fdiv (a+b+1) 2`
(`medianInt_even_round` below proves this transcription). -/
def medianInt (values : List ℤ) : Option ℤ :=
  if values.length = 0 then none
  else
    let arr := sortIntsAsc values
    let mid := arr.length / 2
    if arr.length % 2 = 1 then some (arr.getD mid 0)
    else some (Int.fdiv (arr.getD (mid - 1) 0 + arr.getD mid 0 + 1) 2)

/-- First-occurrence deduplication (insertion order of a JS `Map`'s keys). -/
def firstDedupAux (seen : List ℚ) : List ℚ → List ℚ
  | [] => []
  | x :: xs =>
      if x ∈ seen then firstDedupAux seen xs
      else x :: firstDedupAux (x :: seen) xs

/-- The distinct buckets in first-occurrence order. -/
def firstDedup (l : List ℚ) : List ℚ := firstDedupAux [] l

/-- The inner loop of `validateDistanceConsistency` over one bucket's hits in
order: checks `distanceById.get(hit.id)` against
`i == 0 ? null : hit.nonce - bucketHits[i-1].nonce` (a missing map entry,
JS `undefined`, also fails the strict comparison). -/
def checkRun (dmap : ℕ → Option (Option ℤ)) :
    Option ℤ → List HitRecord → Bool
  | _, [] => true
  | prev, x :: xs =>
      (dmap x.id == some (prev.map (fun p => x.nonce - p)))
        && checkRun dmap (some x.nonce) xs

/-- `validateDistanceConsistency`: sort by nonce, group by
`bucketMultiplier(hit.bucket)`, and check every bucket's run. -/
def validateDistanceConsistency (hits : List HitRecord)
    (dmap : ℕ → Option (Option ℤ)) : Bool :=
  let sorted := List.insertionSort hitLE hits
  (firstDedup (sorted.map (fun h => bucketMultiplier h.bucket))).all
    (fun m => checkRun dmap none
      (sorted.filter (fun h => bucketMultiplier h.bucket == m)))

/-- The nonce of the last bet before the current one (scanning left of it)
whose bucket is `m` — the "previous occurrence" of the spec. -/
def prevBetNonce (l : List Bet) (m : ℚ) : Option ℤ :=
  (l.reverse.find? (fun b => betBucket b == some m)).map (fun b => b.nonce)

/-- The last hit in `l` whose bucket is `m`. -/
def prevHit (l : List HitRecord) (m : ℚ) : Option HitRecord :=
  l.reverse.find? (fun h => bucketMultiplier h.bucket == m)

/-- The nonce of the last hit in `l` whose bucket is `m`. -/
def prevHitNonce (l : List HitRecord) (m : ℚ) : Option ℤ :=
  (prevHit l m).map (fun h => h.nonce)

/-- Concrete bets for the C2 witness. -/
def wBetA : Bet := { id := 1, nonce := 10, round_result := some (.fin 2) }

/-- Concrete bets for the C2 witness. -/
def wBetB : Bet := { id := 2, nonce := 15, payout_multiplier := some (.fin 2) }

/-- Concrete bets for the C2 witness. -/
def wBetC : Bet := { id := 3, nonce := 20, round_result := some .nan }

/-- Concrete hits for witnesses. -/
def wHit1 : HitRecord := { id := 1, nonce := 10, bucket := 2 }

/-- Concrete hits for witnesses. -/
def wHit2 : HitRecord := { id := 2, nonce := 15, bucket := 2 }

/-- Concrete hits for witnesses. -/
def wHit3 : HitRecord := { id := 3, nonce := 20, bucket := 2 }

/-! ## Run-creation form validation (`NewRun` page)

`validateForm` reads the form state and records an error message per field;
`handleSubmit` returns early when validation fails, and otherwise issues the
create-run request.  A JS number in the `targets` array can be `NaN` or an
infinity, which this validation can observe, so targets get their own
value type with JS comparison semantics. -/

/-- A JS number as the targets validation can observe it. -/
inductive TargetVal where
  | nan
  | inf
  | ninf
  | num (q : ℚ)
deriving DecidableEq

/-- JS `<=`: any comparison with `NaN` is false; the infinities compare as
expected. -/
def jsLe : TargetVal → TargetVal → Bool
  | .nan, _ => false
  | _, .nan => false
  | .ninf, _ => true
  | .inf, .inf => true
  | .inf, _ => false
  | _, .inf => true
  | .num a, .num b => a ≤ b
  | .num _, .ninf => false

/-- The whitespace characters relevant to the seed fields. -/
def isJsSpace (c : Char) : Bool :=
  c = ' ' || c = '\t' || c = '\n' || c = '\r'

/-- JS `String.prototype.trim`. -/
def jsTrim (s : String) : String :=
  ⟨((s.data.dropWhile isJsSpace).reverse.dropWhile isJsSpace).reverse⟩

/-- The form state read by `validateForm` (`end` is written `endN`). -/
structure RunForm where
  server_seed : String
  client_seed : String
  start : ℤ
  endN : ℤ
  difficulty : Difficulty
  targets : List TargetVal
deriving DecidableEq

/-- The `newErrors` record: one optional message per validated field. -/
structure FormErrors where
  server_seed : Option String := none
  client_seed : Option String := none
  start : Option String := none
  endN : Option String := none
  targets : Option String := none
deriving DecidableEq

/-- `Object.keys(newErrors).length === 0`. -/
def FormErrors.isEmpty (e : FormErrors) : Bool :=
  e.server_seed.isNone && e.client_seed.isNone && e.start.isNone
    && e.endN.isNone && e.targets.isNone

/-- `validateForm`: sets per-field error messages (a later assignment to the
same key overwrites, as for the two `end` checks) and returns whether the
error record stayed empty. -/
def validateForm (f : RunForm) : FormErrors × Bool :=
  let e : FormErrors :=
    { server_seed :=
        if jsTrim f.server_seed = ("") then some ("Server seed is required")
        else none,
      client_seed :=
        if jsTrim f.client_seed = ("") then some ("Client seed is required")
        else none,
      start :=
        if f.start < 1 then some ("Start must be at least 1") else none,
      endN :=
        if 1000000 < f.endN - f.start + 1 then
          some ("Range cannot exceed 1M nonces")
        else if f.endN < f.start then
          some ("End must be greater than or equal to start")
        else none,
      targets :=
        if f.targets.length = 0 then some ("At least one target is required")
        else if f.targets.any (fun t => jsLe t (.num 1)) then
          some ("All targets must be greater than 1")
        else none }
  (e, e.isEmpty)

/-- First-occurrence deduplication of targets (`[...new Set(targets)]`;
JS sets use SameValueZero, under which `NaN` equals `NaN`). -/
def dedupTargetsAux (seen : List TargetVal) :
    List TargetVal → List TargetVal
  | [] => []
  | x :: xs =>
      if x ∈ seen then dedupTargetsAux seen xs
      else x :: dedupTargetsAux (x :: seen) xs

/-- `[...new Set(formData.targets)]`. -/
def dedupTargets (l : List TargetVal) : List TargetVal := dedupTargetsAux [] l

/-- The create-run request issued by `handleSubmit`. -/
structure RunRequest where
  server_seed : String
  client_seed : String
  start : ℤ
  endN : ℤ
  difficulty : Difficulty
  targets : List TargetVal
deriving DecidableEq

/-- `handleSubmit` up to the API call: returns without a request when
`validateForm` fails, and otherwise issues the request with trimmed seeds
and de-duplicated sorted targets (the JS numeric sort order on non-finite
comparator values is unspecified; the claims only observe whether a request
is issued at all). -/
def submitRun (f : RunForm) : Option RunRequest :=
  if (validateForm f).2 then
    some { server_seed := jsTrim f.server_seed,
           client_seed := jsTrim f.client_seed,
           start := f.start, endN := f.endN, difficulty := f.difficulty,
           targets := List.insertionSort (fun a b => jsLe a b = true)
             (dedupTargets f.targets) }
  else none

/-- The concrete form for the C6 witness: `end < start`. -/
def wFormBackwards : RunForm :=
  { server_seed := ("a"), client_seed := ("b"), start := 5, endN := 3,
    difficulty := .medium, targets := [.num 2] }

/-- The concrete form for the C6 witness: a million-and-one nonces. -/
def wFormHuge : RunForm :=
  { server_seed := ("a"), client_seed := ("b"), start := 1, endN := 1000001,
    difficulty := .medium, targets := [.num 2] }

/-- The concrete form of the C7 counterexample with a `NaN` target. -/
def wFormNan : RunForm :=
  { server_seed := ("a"), client_seed := ("b"), start := 1, endN := 100,
    difficulty := .medium, targets := [.nan] }

/-- The concrete form of the C7 counterexample with a `+Infinity` target. -/
def wFormInf : RunForm :=
  { server_seed := ("a"), client_seed := ("b"), start := 1, endN := 100,
    difficulty := .medium, targets := [.inf] }

/-- The concrete form for the C7 amended witness: no targets. -/
def wFormEmpty : RunForm :=
  { server_seed := ("a"), client_seed := ("b"), start := 1, endN := 100,
    difficulty := .medium, targets := [] }

/-- The concrete form for the C7 amended witness: a `-Infinity` target. -/
def wFormNinf : RunForm :=
  { server_seed := ("a"), client_seed := ("b"), start := 1, endN := 100,
    difficulty := .medium, targets := [.ninf, .num 2] }

/-! ## DistanceAnalyzer per-bucket statistics

Modelled from the spec: the backend `compute_distances` implementation is not
in this repository snapshot — only its response type
(`DistanceStatsResponse` in `frontend/src/lib/api.ts`, whose `stats` object
declares exactly `mean, median, min, max, p90, p99, stddev, cv`) and its UI
consumers are.  The definitions below follow the spec's DistanceAnalyzer
contract: bucket the outcomes by multiplier rounded to 2 decimals, take the
nonce gaps between consecutive same-bucket outcomes, and report the eight
descriptive statistics over those gaps. -/

/-- An outcome as the DistanceAnalyzer consumes it. -/
structure SpecOutcome where
  nonce : ℤ
  multiplier : ℚ
deriving DecidableEq

/-- Consecutive differences of a nonce list: the per-bucket gap values. -/
def consecGaps : List ℤ → List ℤ
  | a :: b :: rest => (b - a) :: consecGaps (b :: rest)
  | _ => []

/-- Modelled from the spec: the gap list of one multiplier bucket over a
nonce-ascending outcome list. -/
def bucketGaps (outs : List SpecOutcome) (m : ℚ) : List ℤ :=
  consecGaps ((outs.filter
    (fun o => bucketMultiplier o.multiplier == m)).map (fun o => o.nonce))

/-- Mean of a gap list. -/
def meanGaps (g : List ℤ) : ℚ := (g.sum : ℚ) / g.length

/-- Median of a gap list (average of the two middle elements when even). -/
def medianGaps (g : List ℤ) : ℚ :=
  let s := sortIntsAsc g
  if g.length % 2 = 1 then ((s.getD (g.length / 2) 0 : ℤ) : ℚ)
  else ((s.getD (g.length / 2 - 1) 0 + s.getD (g.length / 2) 0 : ℤ) : ℚ) / 2

/-- Minimum of a gap list. -/
def minGaps (g : List ℤ) : ℚ := ((sortIntsAsc g).getD 0 0 : ℚ)

/-- Maximum of a gap list. -/
def maxGaps (g : List ℤ) : ℚ :=
  ((sortIntsAsc g).getD (g.length - 1) 0 : ℚ)

/-- Nearest-rank percentile of a gap list (index `⌊c·n⌋`, clamped — the
convention the frontend's live approximation also uses). -/
def percentileGaps (c : ℚ) (g : List ℤ) : ℚ :=
  ((sortIntsAsc g).getD (min (⌊c * g.length⌋).toNat (g.length - 1)) 0 : ℚ)

/-- Population variance of a gap list. -/
def varianceGaps (g : List ℤ) : ℚ :=
  ((g.map (fun x => ((x : ℚ) - meanGaps g) ^ 2)).sum) / g.length

/-- Standard deviation of a gap list. -/
noncomputable def stddevGaps (g : List ℤ) : ℝ :=
  Real.sqrt ((varianceGaps g : ℚ) : ℝ)

/-- Coefficient of variation of a gap list. -/
noncomputable def cvGaps (g : List ℤ) : ℝ :=
  stddevGaps g / ((meanGaps g : ℚ) : ℝ)

/-- The per-bucket descriptive statistics record, matching the declared
`stats` object of `DistanceStatsResponse`. -/
structure GapStats where
  mean : ℚ
  median : ℚ
  min : ℚ
  max : ℚ
  p90 : ℚ
  p99 : ℚ
  stddev : ℝ
  cv : ℝ

/-- Modelled from the spec: the DistanceAnalyzer's per-bucket statistics. -/
noncomputable def distanceBucketStats (outs : List SpecOutcome) (m : ℚ) :
    GapStats :=
  let g := bucketGaps outs m
  { mean := meanGaps g, median := medianGaps g, min := minGaps g,
    max := maxGaps g, p90 := percentileGaps (mkRat 9 10) g,
    p99 := percentileGaps (mkRat 99 100) g, stddev := stddevGaps g,
    cv := cvGaps g }

/-! ## Theorems -/

/-- The expert-table value `11200.65`, written as an exact hundredth, equals
the decimal literal. -/
theorem expertTop_eq : (mkRat 1120065 100 : ℚ) = (11200.65 : ℚ) := by
  norm_num [Rat.ofScientific_true_def]

set_option maxRecDepth 4000 in
/-- C1 (counterexample): on the golden input
(server `564e…81ca`, client `zXv1upuFns`, nonce 5663, expert) the verify
operation does not yield `pop_point = 5` and `safe_pumps = 4` together with
`max_multiplier = 11200.65`: the permutation's first ten entries are
`[16, 25, 20, 13, 15, 14, 23, 18, 19, 17]`, so `pop_point = 13`, not 5 (and
indeed `table[expert][4] = 9.08 ≠ 11200.65`, so the claimed conjunction is
even self-contradictory under the resolver contract). -/
theorem golden_vector_claim_false :
    ¬ ((verifyPump goldenServer goldenClient 5663 .expert).multiplier = 11200.65
        ∧ (verifyPump goldenServer goldenClient 5663 .expert).pop_point = 5
        ∧ (verifyPump goldenServer goldenClient 5663 .expert).safe_pumps = 4) :=
  fun h => absurd h.2.1 (by decide)

set_option maxRecDepth 4000 in
/-- C1 (amended): on the golden input the verify operation yields
`max_multiplier = 11200.65`, `pop_point = 13` and `safe_pumps = 12`, and the
multiplier is `table[expert][safe_pumps]` over the static expert table. -/
theorem golden_vector_verified :
    verifyPump goldenServer goldenClient 5663 .expert =
      { pop_point := 13, safe_pumps := 12, multiplier := 11200.65 }
      ∧ (11200.65 : ℚ) = (multiplierTable .expert).getD 12 0 := by
  refine ⟨?_, ?_⟩
  · rw [show ({ pop_point := 13, safe_pumps := 12, multiplier := 11200.65 } : Outcome)
        = { pop_point := 13, safe_pumps := 12, multiplier := mkRat 1120065 100 } from by
          rw [expertTop_eq]]
    decide
  · rw [← expertTop_eq]
    decide

/-- C8: for every difficulty the static multiplier table has exactly
`26 - M` entries: easy 25, medium 23, hard 21, expert 16. -/
theorem table_shape :
    (∀ d : Difficulty, (multiplierTable d).length = 26 - popTokens d)
      ∧ (multiplierTable .easy).length = 25
      ∧ (multiplierTable .medium).length = 23
      ∧ (multiplierTable .hard).length = 21
      ∧ (multiplierTable .expert).length = 16 := by
  refine ⟨fun d => ?_, rfl, rfl, rfl, rfl⟩
  cases d <;> rfl

/-- `bucketMultiplier` is exactly the exact-rational reading of
`Math.round(m * 100) / 100`. -/
theorem bucketMultiplier_eq (q : ℚ) :
    bucketMultiplier q = ((jsRound (q * 100) : ℤ) : ℚ) / 100 := by
  have hqd : q * (q.den : ℚ) = (q.num : ℚ) := Rat.mul_den_eq_num q
  have hfrac : q * 100 + 1 / 2
      = ((200 * q.num + (q.den : ℤ) : ℤ) : ℚ) / ((2 * q.den : ℕ) : ℚ) := by
    rw [eq_div_iff (by positivity)]
    push_cast
    linear_combination (200 : ℚ) * hqd
  have hfloor : jsRound (q * 100)
      = Int.fdiv (200 * q.num + (q.den : ℤ)) (2 * (q.den : ℤ)) := by
    calc jsRound (q * 100)
        = ⌊((200 * q.num + (q.den : ℤ) : ℤ) : ℚ) / ((2 * q.den : ℕ) : ℚ)⌋ := by
          rw [jsRound, hfrac]
      _ = (200 * q.num + (q.den : ℤ)) / ((2 * q.den : ℕ) : ℤ) :=
          Rat.floor_intCast_div_natCast _ _
      _ = Int.fdiv (200 * q.num + (q.den : ℤ)) (2 * (q.den : ℤ)) := by
          rw [Int.fdiv_eq_ediv _ (by positivity)]
          push_cast
          rfl
  rw [bucketMultiplier, Rat.divInt_eq_div, hfloor]
  push_cast
  rfl

/-- For integers `a`, `b`, the `medianInt` even-length branch
`fdiv (a + b + 1) 2` is exactly `Math.round((a + b) / 2)`. -/
theorem medianInt_even_round (a b : ℤ) :
    Int.fdiv (a + b + 1) 2 = jsRound (((a : ℚ) + b) / 2) := by
  have h2 : ((a : ℚ) + b) / 2 + 1 / 2 = ((a + b + 1 : ℤ) : ℚ) / ((2 : ℕ) : ℚ) := by
    push_cast
    ring
  rw [jsRound, h2, Rat.floor_intCast_div_natCast,
    Int.fdiv_eq_ediv _ (by norm_num)]
  norm_num

/-- The `lastNonceByBucket` map after folding the pass over `l` holds, for
each bucket `m`, the nonce of the last bet of `l` in that bucket — falling
back to the incoming state when `l` has none. -/
theorem foldl_distStep_fst (l : List Bet) (st : DistState) (m : ℚ) :
    (l.foldl distStep st).1 m = (prevBetNonce l m).or (st.1 m) := by
  induction l generalizing st with
  | nil => simp [prevBetNonce]
  | cons b l ih =>
      rw [List.foldl_cons, ih]
      simp only [prevBetNonce, List.reverse_cons, List.find?_append]
      cases hf : l.reverse.find? (fun x => betBucket x == some m) with
      | some x => simp [hf]
      | none =>
          simp only [hf, Option.map_none, Option.none_or, Option.none_or]
          cases hb : betBucket b with
          | none => simp [distStep, hb, List.find?, Option.or]
          | some mb =>
              by_cases hm : mb = m
              · subst hm
                simp [distStep, hb, updF, List.find?]
              · have hm' : ¬m = mb := fun h => hm h.symm
                have hbeq : (mb == m) = false := beq_eq_false_iff_ne.mpr hm
                simp [distStep, hb, updF, List.find?, hm, hm', hbeq]

/-- Folding the pass over bets none of which has id `k` leaves the
`distanceById` entry of `k` unchanged. -/
theorem foldl_distStep_snd_untouched (l : List Bet) (st : DistState) (k : ℕ)
    (hk : k ∉ l.map Bet.id) :
    (l.foldl distStep st).2 k = st.2 k := by
  induction l generalizing st with
  | nil => rfl
  | cons b l ih =>
      simp only [List.map_cons, List.mem_cons, not_or] at hk
      rw [List.foldl_cons, ih _ hk.2]
      cases hb : betBucket b with
      | none => simp [distStep, hb, updF, hk.1]
      | some m => simp [distStep, hb, updF, hk.1]

/-- Characterization of the single pass: with pairwise-distinct ids, the
entry recorded for a bet is `null` when its bucket is undefined, and
otherwise the gap to the last same-bucket bet to its left (with the incoming
`lastNonceByBucket` as fallback). -/
theorem foldl_distStep_at (pre : List Bet) (b : Bet) (post : List Bet)
    (st : DistState) (hid : (((pre ++ b :: post).map Bet.id)).Nodup) :
    ((pre ++ b :: post).foldl distStep st).2 b.id =
      match betBucket b with
      | none => some none
      | some m =>
          some (((prevBetNonce pre m).or (st.1 m)).map (fun p => b.nonce - p)) := by
  have hpost : b.id ∉ post.map Bet.id := by
    simp only [List.map_append, List.map_cons, List.nodup_append,
      List.nodup_cons] at hid
    exact hid.2.1.1
  rw [List.foldl_append, List.foldl_cons,
    foldl_distStep_snd_untouched _ _ _ hpost]
  cases hb : betBucket b with
  | none => simp [distStep, hb, updF]
  | some m => simp [distStep, hb, updF, foldl_distStep_fst]

/-- C2: for every list of bets (with the per-bet map entries identified by
their pairwise-distinct ids), the distance computation assigns to each bet of
the nonce-ascending order whose multiplier buckets the gap to the previous
same-bucket bet, `null` (a map entry holding JS `null`) to the first
occurrence of its bucket, and `null` to bets whose multiplier is
`null`/`NaN`. -/
theorem distance_assignment (bets : List Bet)
    (hid : (bets.map Bet.id).Nodup)
    (pre : List Bet) (b : Bet) (post : List Bet)
    (hdecomp : List.insertionSort betLE bets = pre ++ b :: post) :
    (betBucket b = none → computeDistancesNonceAsc bets b.id = some none)
      ∧ (∀ m : ℚ, betBucket b = some m →
          (prevBetNonce pre m = none →
            computeDistancesNonceAsc bets b.id = some none)
          ∧ (∀ p : ℤ, prevBetNonce pre m = some p →
              computeDistancesNonceAsc bets b.id = some (some (b.nonce - p)))) := by
  have hsortid : (((List.insertionSort betLE bets).map Bet.id)).Nodup :=
    (((List.perm_insertionSort betLE bets).map Bet.id).nodup_iff).mpr hid
  rw [hdecomp] at hsortid
  have hchar := foldl_distStep_at pre b post distInit hsortid
  have hmain : computeDistancesNonceAsc bets b.id
      = ((pre ++ b :: post).foldl distStep distInit).2 b.id := by
    rw [computeDistancesNonceAsc, hdecomp]
  refine ⟨fun h0 => ?_, fun m hm => ⟨fun hp => ?_, fun p hp => ?_⟩⟩
  · rw [hmain, hchar, h0]
  · rw [hmain, hchar, hm]
    simp [hp, distInit]
  · rw [hmain, hchar, hm]
    simp [hp, distInit]

/-- C2 witness: on a concrete bet list, the second same-bucket bet receives
the nonce gap 5. -/
theorem distance_assignment_witness :
    computeDistancesNonceAsc [wBetA, wBetB, wBetC] 2 = some (some 5) := by
  have h := (distance_assignment [wBetA, wBetB, wBetC] (by decide)
      [wBetA] wBetB [wBetC] (by decide)).2 (bucketMultiplier 2) rfl
  exact (h.2 10 (by decide)).trans (by decide)

/-- Bets sorted by nonce and with pairwise-distinct nonces are strictly
sorted. -/
theorem sorted_strict_of_nodup_nonce (l : List Bet)
    (hs : List.Sorted betLE l) (hn : (l.map Bet.nonce).Nodup) :
    List.Sorted (fun a b : Bet => a.nonce < b.nonce) l := by
  have hne : List.Pairwise (fun a b : Bet => a.nonce ≠ b.nonce) l :=
    (List.pairwise_map).mp hn
  exact (hs.and hne).imp (fun h => lt_of_le_of_ne h.1 h.2)

/-- With pairwise-distinct nonces, every permutation of a bet list sorts to
the same list: the defensive sort is a canonical form. -/
theorem sortBets_unique (l₁ l₂ : List Bet) (hperm : List.Perm l₁ l₂)
    (hnonce : (l₂.map Bet.nonce).Nodup) :
    List.insertionSort betLE l₁ = List.insertionSort betLE l₂ := by
  letI : IsAntisymm Bet (fun a b : Bet => a.nonce < b.nonce) :=
    ⟨fun a b h1 h2 => absurd (lt_trans h1 h2) (lt_irrefl _)⟩
  have p₁ := List.perm_insertionSort betLE l₁
  have p₂ := List.perm_insertionSort betLE l₂
  have hp : List.Perm (List.insertionSort betLE l₁)
      (List.insertionSort betLE l₂) := p₁.trans (hperm.trans p₂.symm)
  have hn₂ : ((List.insertionSort betLE l₂).map Bet.nonce).Nodup :=
    ((p₂.map Bet.nonce).nodup_iff).mpr hnonce
  have hn₁ : ((List.insertionSort betLE l₁).map Bet.nonce).Nodup :=
    ((hp.map Bet.nonce).nodup_iff).mpr hn₂
  exact List.eq_of_perm_of_sorted hp
    (sorted_strict_of_nodup_nonce _ (List.sorted_insertionSort betLE l₁) hn₁)
    (sorted_strict_of_nodup_nonce _ (List.sorted_insertionSort betLE l₂) hn₂)

/-- C4: with pairwise-distinct ids and nonces, the distance computation is
order-insensitive — any permutation of the input yields the same
id-to-distance map as the nonce-ascending input — and it equals the
chronological single pass over the sorted list. -/
theorem distances_order_insensitive (bets bets' : List Bet)
    (hperm : List.Perm bets' bets)
    (hid : (bets.map Bet.id).Nodup)
    (hnonce : (bets.map Bet.nonce).Nodup) :
    computeDistancesNonceAsc bets' = computeDistancesNonceAsc bets
      ∧ computeDistancesNonceAsc bets
        = singlePassDistances (List.insertionSort betLE bets) := by
  refine ⟨?_, rfl⟩
  rw [computeDistancesNonceAsc, computeDistancesNonceAsc,
    sortBets_unique bets' bets hperm hnonce]

/-- C4 witness: a concrete two-bet list and its transposition produce the
same distance map, which is the chronological single-pass map. -/
theorem distances_order_insensitive_witness :
    computeDistancesNonceAsc [wBetB, wBetA] = computeDistancesNonceAsc [wBetA, wBetB]
      ∧ computeDistancesNonceAsc [wBetA, wBetB]
        = singlePassDistances (List.insertionSort betLE [wBetA, wBetB]) :=
  distances_order_insensitive [wBetA, wBetB] [wBetB, wBetA]
    (List.Perm.swap wBetA wBetB []) (by decide) (by decide)

/-- The `lastNonceByBucket` map after folding the hit pass over `l` holds,
for each bucket `m`, the nonce of the last hit of `l` in that bucket —
falling back to the incoming state when `l` has none. -/
theorem foldl_hitStep_fst (l : List HitRecord) (st : DistState) (m : ℚ) :
    (l.foldl hitStep st).1 m = (prevHitNonce l m).or (st.1 m) := by
  induction l generalizing st with
  | nil => simp [prevHitNonce, prevHit]
  | cons x l ih =>
      rw [List.foldl_cons, ih]
      simp only [prevHitNonce, prevHit, List.reverse_cons, List.find?_append]
      cases hf : l.reverse.find? (fun y => bucketMultiplier y.bucket == m) with
      | some y => simp [hf]
      | none =>
          simp only [hf, Option.map_none, Option.none_or]
          by_cases hm : bucketMultiplier x.bucket = m
          · simp [hitStep, updF, hm, List.find?]
          · have hm' : ¬m = bucketMultiplier x.bucket := fun h => hm h.symm
            have hbeq : (bucketMultiplier x.bucket == m) = false :=
              beq_eq_false_iff_ne.mpr hm
            simp [hitStep, updF, List.find?, hbeq, hm']

/-- Folding the hit pass over hits none of which has id `k` leaves the
`distanceById` entry of `k` unchanged. -/
theorem foldl_hitStep_snd_untouched (l : List HitRecord) (st : DistState)
    (k : ℕ) (hk : k ∉ l.map HitRecord.id) :
    (l.foldl hitStep st).2 k = st.2 k := by
  induction l generalizing st with
  | nil => rfl
  | cons x l ih =>
      simp only [List.map_cons, List.mem_cons, not_or] at hk
      rw [List.foldl_cons, ih _ hk.2]
      simp [hitStep, updF, hk.1]

/-- Characterization of the hit pass: with pairwise-distinct ids, the entry
recorded for a hit is the gap to the last same-bucket hit to its left (with
the incoming `lastNonceByBucket` as fallback), or `null` when there is
none. -/
theorem foldl_hitStep_at (pre : List HitRecord) (h : HitRecord)
    (post : List HitRecord) (st : DistState)
    (hid : (((pre ++ h :: post).map HitRecord.id)).Nodup) :
    ((pre ++ h :: post).foldl hitStep st).2 h.id =
      some (((prevHitNonce pre (bucketMultiplier h.bucket)).or
        (st.1 (bucketMultiplier h.bucket))).map (fun p => h.nonce - p)) := by
  have hpost : h.id ∉ post.map HitRecord.id := by
    simp only [List.map_append, List.map_cons, List.nodup_append,
      List.nodup_cons] at hid
    exact hid.2.1.1
  rw [List.foldl_append, List.foldl_cons,
    foldl_hitStep_snd_untouched _ _ _ hpost]
  simp [hitStep, updF, foldl_hitStep_fst]

/-- A `find?` hit that survives a `filter` is still the first match after
filtering. -/
theorem find?_filter_of_found {α : Type} (p q : α → Bool) (l : List α)
    (x : α) (hf : l.find? q = some x) (hp : p x = true) :
    (l.filter p).find? q = some x := by
  induction l with
  | nil => simp at hf
  | cons a l ih =>
      by_cases hqa : q a = true
      · rw [List.find?_cons_of_pos l hqa] at hf
        obtain rfl : a = x := by injection hf
        rw [List.filter_cons_of_pos hp, List.find?_cons_of_pos _ hqa]
      · have hqa' : q a = false := by
          cases hq : q a
          · rfl
          · exact absurd hq hqa
        rw [List.find?_cons_of_neg l hqa] at hf
        by_cases hpa : p a = true
        · rw [List.filter_cons_of_pos hpa, List.find?_cons_of_neg _ hqa]
          exact ih hf
        · rw [List.filter_cons_of_neg hpa]
          exact ih hf

/-- C3: distance idempotence across ranges.  For a nonce-ascending hit list
with pairwise-distinct ids and a range `[a, b]`, a hit inside the range whose
previous same-bucket occurrence is also inside the range receives the same
distance from the range-filtered computation as from the full computation
(namely the gap to that previous occurrence). -/
theorem distance_range_idempotent (hits : List HitRecord) (a b : ℤ)
    (pre post : List HitRecord) (h p : HitRecord)
    (hsorted : List.Sorted hitLE hits)
    (hid : (hits.map HitRecord.id).Nodup)
    (hdecomp : hits = pre ++ h :: post)
    (hin : a ≤ h.nonce ∧ h.nonce ≤ b)
    (hprev : prevHit pre (bucketMultiplier h.bucket) = some p)
    (hpin : a ≤ p.nonce ∧ p.nonce ≤ b) :
    computeDistancesForHits (filterHitsByRange hits (a, b)) h.id
        = computeDistancesForHits hits h.id
      ∧ computeDistancesForHits hits h.id = some (some (h.nonce - p.nonce)) := by
  subst hdecomp
  have hprevn : prevHitNonce pre (bucketMultiplier h.bucket) = some p.nonce := by
    rw [prevHitNonce, hprev]
    rfl
  -- the full-list computation
  have hfull : computeDistancesForHits (pre ++ h :: post) h.id
      = some (some (h.nonce - p.nonce)) := by
    rw [computeDistancesForHits, List.Sorted.insertionSort_eq hsorted,
      foldl_hitStep_at pre h post distInit hid, hprevn]
    rfl
  -- the filtered list decomposes around `h`
  have hph : (fun x : HitRecord => a ≤ x.nonce && x.nonce ≤ b) h = true := by
    simp [hin.1, hin.2]
  have hfilter : filterHitsByRange (pre ++ h :: post) (a, b)
      = (pre.filter (fun x => a ≤ x.nonce && x.nonce ≤ b))
          ++ h :: (post.filter (fun x => a ≤ x.nonce && x.nonce ≤ b)) := by
    show (pre ++ h :: post).filter (fun x => a ≤ x.nonce && x.nonce ≤ b) = _
    rw [List.filter_append,
      @List.filter_cons_of_pos HitRecord
        (fun x => a ≤ x.nonce && x.nonce ≤ b) h post hph]
  have hsub : List.Sublist
      (filterHitsByRange (pre ++ h :: post) (a, b)) (pre ++ h :: post) :=
    List.filter_sublist _
  have hsorted' : List.Sorted hitLE (filterHitsByRange (pre ++ h :: post) (a, b)) :=
    hsorted.sublist hsub
  have hid' : ((filterHitsByRange (pre ++ h :: post) (a, b)).map
      HitRecord.id).Nodup := hid.sublist (hsub.map HitRecord.id)
  rw [hfilter] at hsorted' hid'
  have hprevf : prevHitNonce
      (pre.filter (fun x => a ≤ x.nonce && x.nonce ≤ b))
      (bucketMultiplier h.bucket) = some p.nonce := by
    have hpp : (fun x : HitRecord => a ≤ x.nonce && x.nonce ≤ b) p = true := by
      simp [hpin.1, hpin.2]
    have hfind := find?_filter_of_found
      (fun x : HitRecord => a ≤ x.nonce && x.nonce ≤ b)
      (fun x : HitRecord =>
        bucketMultiplier x.bucket == bucketMultiplier h.bucket)
      pre.reverse p hprev hpp
    rw [prevHitNonce, prevHit, ← List.filter_reverse, hfind]
    rfl
  have hfilt : computeDistancesForHits
      (filterHitsByRange (pre ++ h :: post) (a, b)) h.id
      = some (some (h.nonce - p.nonce)) := by
    rw [hfilter, computeDistancesForHits, List.Sorted.insertionSort_eq hsorted',
      foldl_hitStep_at _ h _ distInit hid', hprevf]
    rfl
  exact ⟨hfilt.trans hfull.symm, hfull⟩

/-- C3 witness: with hits at nonces 10, 15, 20 (same bucket) and range
`[12, 25]`, the hit at nonce 20 gets gap 5 from both computations. -/
theorem distance_range_idempotent_witness :
    computeDistancesForHits (filterHitsByRange [wHit1, wHit2, wHit3] (12, 25)) 3
        = computeDistancesForHits [wHit1, wHit2, wHit3] 3
      ∧ computeDistancesForHits [wHit1, wHit2, wHit3] 3 = some (some 5) := by
  have h := distance_range_idempotent [wHit1, wHit2, wHit3] 12 25
    [wHit1, wHit2] [] wHit3 wHit2 (by decide) (by decide) rfl (by decide)
    (by decide) (by decide)
  exact ⟨h.1, h.2.trans (by decide)⟩

/-- The grouped re-check of `validateDistanceConsistency` succeeds on every
bucket run against the map computed by the single pass: scanning a suffix,
with the accumulator holding the last same-bucket nonce of the prefix. -/
theorem checkRun_of_pass (l : List HitRecord)
    (hid : (l.map HitRecord.id).Nodup) (m : ℚ) :
    ∀ suf pre, l = pre ++ suf →
      checkRun (l.foldl hitStep distInit).2 (prevHitNonce pre m)
        (suf.filter (fun x => bucketMultiplier x.bucket == m)) = true := by
  intro suf
  induction suf with
  | nil =>
      intro pre hl
      rfl
  | cons x suf ih =>
      intro pre hl
      have hl' : l = (pre ++ [x]) ++ suf := by rw [hl, List.append_assoc]; rfl
      by_cases hx : (bucketMultiplier x.bucket == m) = true
      · rw [@List.filter_cons_of_pos HitRecord
          (fun y => bucketMultiplier y.bucket == m) x suf hx]
        simp only [checkRun]
        rw [Bool.and_eq_true]
        refine ⟨?_, ?_⟩
        · have hm' : bucketMultiplier x.bucket = m := by simpa using hx
          have hat := foldl_hitStep_at pre x suf distInit (by rw [← hl]; exact hid)
          rw [hl, hat, hm']
          simp [distInit]
        · have hprev' : prevHitNonce (pre ++ [x]) m = some x.nonce := by
            rw [prevHitNonce, prevHit,
              show (pre ++ [x]).reverse = x :: pre.reverse by simp,
              @List.find?_cons_of_pos HitRecord
                (fun h => bucketMultiplier h.bucket == m) x pre.reverse hx]
            rfl
          have hrec := ih (pre ++ [x]) hl'
          rw [hprev'] at hrec
          exact hrec
      · have hxf : ¬(fun y : HitRecord => bucketMultiplier y.bucket == m) x
            = true := hx
        rw [@List.filter_cons_of_neg HitRecord
          (fun y => bucketMultiplier y.bucket == m) x suf hxf]
        have hprev' : prevHitNonce (pre ++ [x]) m = prevHitNonce pre m := by
          rw [prevHitNonce, prevHitNonce, prevHit, prevHit,
            show (pre ++ [x]).reverse = x :: pre.reverse by simp,
            @List.find?_cons_of_neg HitRecord
              (fun h => bucketMultiplier h.bucket == m) x pre.reverse hx]
        have hrec := ih (pre ++ [x]) hl'
        rw [hprev'] at hrec
        exact hrec

/-- C9: for every hit list with pairwise-distinct ids, the grouped
recomputation of expected gaps in `validateDistanceConsistency` agrees with
the single-pass streaming map of `computeDistancesForHits`. -/
theorem validate_distance_consistency (hits : List HitRecord)
    (hid : (hits.map HitRecord.id).Nodup) :
    validateDistanceConsistency hits (computeDistancesForHits hits) = true := by
  have hid' : (((List.insertionSort hitLE hits).map HitRecord.id)).Nodup :=
    (((List.perm_insertionSort hitLE hits).map HitRecord.id).nodup_iff).mpr hid
  show (firstDedup ((List.insertionSort hitLE hits).map
      (fun h => bucketMultiplier h.bucket))).all
    (fun m => checkRun (computeDistancesForHits hits) none
      ((List.insertionSort hitLE hits).filter
        (fun h => bucketMultiplier h.bucket == m))) = true
  rw [List.all_eq_true]
  intro m _
  exact checkRun_of_pass (List.insertionSort hitLE hits) hid' m
    (List.insertionSort hitLE hits) [] rfl

/-- C9 witness: the consistency validator accepts the pass output on a
concrete hit list. -/
theorem validate_distance_consistency_witness :
    validateDistanceConsistency [wHit1, wHit2, wHit3]
      (computeDistancesForHits [wHit1, wHit2, wHit3]) = true :=
  validate_distance_consistency [wHit1, wHit2, wHit3] (by decide)

/-- C10: `medianInt` returns `null` on the empty list; the middle element of
the sorted copy for odd length; and for even length the integer
`Math.round` of the average of the two middle elements of the sorted copy —
never a half value (the result is an integer by type), and the input list is
only read (the model is pure, `slice()` is implicit). -/
theorem medianInt_spec :
    medianInt [] = none
      ∧ (∀ l : List ℤ, l ≠ [] → l.length % 2 = 1 →
          medianInt l = some ((sortIntsAsc l).getD (l.length / 2) 0))
      ∧ (∀ l : List ℤ, l ≠ [] → l.length % 2 = 0 →
          medianInt l = some (jsRound
            (((((sortIntsAsc l).getD (l.length / 2 - 1) 0 : ℤ) : ℚ)
              + (((sortIntsAsc l).getD (l.length / 2) 0 : ℤ) : ℚ)) / 2))) := by
  refine ⟨rfl, ?_, ?_⟩
  · intro l hne hodd
    have h0 : ¬l.length = 0 := fun h => hne (List.length_eq_zero.mp h)
    have hlen : (sortIntsAsc l).length = l.length :=
      List.length_insertionSort _ l
    rw [medianInt, if_neg h0]
    show (if (sortIntsAsc l).length % 2 = 1
        then some ((sortIntsAsc l).getD ((sortIntsAsc l).length / 2) 0)
        else some (Int.fdiv ((sortIntsAsc l).getD ((sortIntsAsc l).length / 2 - 1) 0
          + (sortIntsAsc l).getD ((sortIntsAsc l).length / 2) 0 + 1) 2)) = _
    rw [hlen, if_pos hodd]
  · intro l hne heven
    have h0 : ¬l.length = 0 := fun h => hne (List.length_eq_zero.mp h)
    have hlen : (sortIntsAsc l).length = l.length :=
      List.length_insertionSort _ l
    have hodd : ¬l.length % 2 = 1 := by omega
    rw [medianInt, if_neg h0]
    show (if (sortIntsAsc l).length % 2 = 1
        then some ((sortIntsAsc l).getD ((sortIntsAsc l).length / 2) 0)
        else some (Int.fdiv ((sortIntsAsc l).getD ((sortIntsAsc l).length / 2 - 1) 0
          + (sortIntsAsc l).getD ((sortIntsAsc l).length / 2) 0 + 1) 2)) = _
    rw [hlen, if_neg hodd,
      medianInt_even_round ((sortIntsAsc l).getD (l.length / 2 - 1) 0)
        ((sortIntsAsc l).getD (l.length / 2) 0)]

/-- C10 witness: odd case (median of `[3, 1, 2]` is 2) and even case
(median of `[1, 2]` is `Math.round(1.5) = 2`). -/
theorem medianInt_spec_witness :
    medianInt [3, 1, 2] = some 2 ∧ medianInt [1, 2] = some 2 := by
  constructor
  · exact (medianInt_spec.2.1 [3, 1, 2] (by decide) (by decide)).trans (by decide)
  · refine (medianInt_spec.2.2 [1, 2] (by decide) (by decide)).trans ?_
    rw [show (sortIntsAsc [1, 2]).getD (([1, 2] : List ℤ).length / 2 - 1) 0
          = (1 : ℤ) by decide,
      show (sortIntsAsc [1, 2]).getD (([1, 2] : List ℤ).length / 2) 0
          = (2 : ℤ) by decide,
      ← medianInt_even_round 1 2]
    decide

/-- C6: a run-creation input with `end < start`, or with range size
`end - start + 1` over the configured maximum of 1,000,000 nonces, fails
validation and starts no run computation. -/
theorem invalid_range_rejected (f : RunForm)
    (h : f.endN < f.start ∨ 1000000 < f.endN - f.start + 1) :
    (validateForm f).2 = false ∧ submitRun f = none := by
  have hend : ((validateForm f).1).endN.isNone = false := by
    rcases h with h1 | h2
    · have hr : ¬(1000000 < f.endN - f.start + 1) := by omega
      simp [validateForm, hr, h1]
    · simp [validateForm, h2]
  have hv : (validateForm f).2 = false := by
    show ((validateForm f).1).isEmpty = false
    simp only [FormErrors.isEmpty, hend]
    simp
  exact ⟨hv, by simp [submitRun, hv]⟩

/-- C6 witness: `end = 3 < start = 5` is rejected, and a million-and-one
nonce range is rejected. -/
theorem invalid_range_rejected_witness :
    ((validateForm wFormBackwards).2 = false ∧ submitRun wFormBackwards = none)
      ∧ ((validateForm wFormHuge).2 = false ∧ submitRun wFormHuge = none) :=
  ⟨invalid_range_rejected _ (by decide), invalid_range_rejected _ (by decide)⟩

/-- C7 (counterexample): a targets list containing only `NaN` (or only
`+Infinity`) passes `validateForm` — `NaN <= 1` and `Infinity <= 1` are both
false, so the only non-emptiness and `> 1` checks do not fire — and a run
request is issued. -/
theorem malformed_targets_claim_false :
    (validateForm wFormNan).2 = true ∧ (submitRun wFormNan).isSome = true
      ∧ (validateForm wFormInf).2 = true
      ∧ (submitRun wFormInf).isSome = true := by
  decide

/-- C7 (amended): an empty targets list fails validation and starts no run,
and a non-finite value is rejected exactly when it compares `<= 1`, i.e.
`-Infinity`; `NaN` and `+Infinity` targets are not rejected. -/
theorem malformed_targets_amended (f : RunForm)
    (h : f.targets = [] ∨ TargetVal.ninf ∈ f.targets) :
    (validateForm f).2 = false ∧ submitRun f = none := by
  have htar : ((validateForm f).1).targets.isNone = false := by
    rcases h with h1 | h2
    · simp [validateForm, h1]
    · have hne : ¬f.targets.length = 0 := by
        have := List.length_pos.mpr (List.ne_nil_of_mem h2)
        omega
      have hany : f.targets.any (fun t => jsLe t (.num 1)) = true :=
        List.any_eq_true.mpr ⟨.ninf, h2, rfl⟩
      simp [validateForm, hne, hany]
  have hv : (validateForm f).2 = false := by
    show ((validateForm f).1).isEmpty = false
    simp only [FormErrors.isEmpty, htar]
    simp
  exact ⟨hv, by simp [submitRun, hv]⟩

/-- C7 amended witness: the empty targets list and a `-Infinity` target are
both rejected. -/
theorem malformed_targets_amended_witness :
    ((validateForm wFormEmpty).2 = false ∧ submitRun wFormEmpty = none)
      ∧ ((validateForm wFormNinf).2 = false ∧ submitRun wFormNinf = none) :=
  ⟨malformed_targets_amended _ (Or.inl rfl),
   malformed_targets_amended _ (Or.inr (by decide))⟩

/-- C5: for every outcome list and multiplier bucket, the analyzer's
statistics include mean, median, min, max, p90, p99, stddev and the
coefficient of variation, each computed over that bucket's gap values
(moreover the reported stddev squares back to the gap variance, and the cv
is stddev over mean). -/
theorem distance_stats_complete (outs : List SpecOutcome) (m : ℚ) :
    (distanceBucketStats outs m).mean = meanGaps (bucketGaps outs m)
      ∧ (distanceBucketStats outs m).median = medianGaps (bucketGaps outs m)
      ∧ (distanceBucketStats outs m).min = minGaps (bucketGaps outs m)
      ∧ (distanceBucketStats outs m).max = maxGaps (bucketGaps outs m)
      ∧ (distanceBucketStats outs m).p90
          = percentileGaps (mkRat 9 10) (bucketGaps outs m)
      ∧ (distanceBucketStats outs m).p99
          = percentileGaps (mkRat 99 100) (bucketGaps outs m)
      ∧ (distanceBucketStats outs m).stddev ^ 2
          = ((varianceGaps (bucketGaps outs m) : ℚ) : ℝ)
      ∧ (distanceBucketStats outs m).cv
          = (distanceBucketStats outs m).stddev
            / ((meanGaps (bucketGaps outs m) : ℚ) : ℝ) := by
  have hvar : (0 : ℚ) ≤ varianceGaps (bucketGaps outs m) := by
    rw [varianceGaps]
    refine div_nonneg (List.sum_nonneg ?_) (by positivity)
    intro x hx
    simp only [List.mem_map] at hx
    obtain ⟨y, _, rfl⟩ := hx
    positivity
  refine ⟨rfl, rfl, rfl, rfl, rfl, rfl, ?_, rfl⟩
  exact Real.sq_sqrt (by exact_mod_cast hvar)

/-- C8 witness: the easy table's length instantiates the shape invariant. -/
theorem table_shape_witness :
    (multiplierTable .easy).length = 26 - popTokens .easy :=
  table_shape.1 .easy

/-- C5 witness: the stats record's mean field at a concrete input. -/
theorem distance_stats_complete_witness :
    (distanceBucketStats [] 2).mean = meanGaps (bucketGaps [] 2) :=
  (distance_stats_complete [] 2).1

end Pump

